import Mathlib

/-!
Shallow embedding of the lazy-todo task manager core
(internal/model, internal/ui/list.go, internal/ui/kanban.go,
internal/ui/styles.go form logic, internal/storage/yaml.go),
together with proofs of the specification claims about it.

Go machine integers never overflow in the embedded code paths
(cursor positions and slice lengths), so Go `int` is embedded as `Int`
where negative values are reachable (cursor scans) and as `Nat` elsewhere.
Go strings are embedded as Lean `String`; `strings.ToLower` as a
character-wise `Char.toLower` map; timestamps (`time.Time`) as an opaque
`Nat` supplied by the caller, since `time.Now()` is an effect.
-/

namespace LazyTodo

/-! ### Data model (internal/model/task.go, group.go) -/

/-- Embeds `model.Task`.  `Priority` and `Status` are Go `string` types,
so they are embedded as `String` (arbitrary values are representable,
matching the source where e.g. `Status.Index` has a default branch). -/
structure Task where
  id : String
  title : String
  description : String
  priority : String
  status : String
  tags : List String
  createdAt : Nat
  updatedAt : Nat
deriving DecidableEq, Repr, Inhabited

/-- Embeds `model.AllStatuses`. -/
def allStatuses : List String := ["todo", "in_progress", "blocked", "done"]

/-- Embeds `model.AllPriorities`. -/
def allPriorities : List String := ["low", "medium", "high", "critical"]

/-- Embeds `model.Status.Label` (French labels, default branch returns
the raw string). -/
def statusLabel (s : String) : String :=
  if s = "todo" then "À faire"
  else if s = "in_progress" then "En cours"
  else if s = "blocked" then "Bloqué"
  else if s = "done" then "Terminé"
  else s

/-- Embeds `model.Priority.Label`. -/
def priorityLabel (p : String) : String :=
  if p = "low" then "Basse"
  else if p = "medium" then "Moyenne"
  else if p = "high" then "Haute"
  else if p = "critical" then "Critique"
  else p

/-- Embeds `model.Status.Index`: total, default branch returns 0. -/
def statusIndex (s : String) : Nat :=
  if s = "todo" then 0
  else if s = "in_progress" then 1
  else if s = "blocked" then 2
  else if s = "done" then 3
  else 0

/-- Embeds `model.StatusFromIndex`: `AllStatuses()[i]` when `0 ≤ i < 4`,
else `StatusTodo`. -/
def statusFromIndex (i : Nat) : String :=
  allStatuses.getD i "todo"

/-- Embeds `model.GroupBy` (an enum `None | ByStatus | ByPriority | ByTag`). -/
inductive GroupBy where
  | gnone
  | byStatus
  | byPriority
  | byTag
deriving DecidableEq, Repr

/-! ### Strings: lowercasing and substring containment
(embedding `strings.ToLower` and `strings.Contains`) -/

/-- Embeds `strings.ToLower`: character-wise lowering. -/
def lowerStr (s : String) : String :=
  String.mk (s.data.map Char.toLower)

/-- Embeds `strings.TrimSpace`: drop whitespace characters from both
ends (structural recursion over the character list, so that it
evaluates inside the kernel). -/
def trimStr (s : String) : String :=
  String.mk
    (((s.data.dropWhile Char.isWhitespace).reverse.dropWhile Char.isWhitespace).reverse)

/-- Helper for `splitOnComma`: accumulate the current piece (reversed)
while scanning. -/
def splitCommaChars : List Char → List Char → List String
  | [], acc => [String.mk acc.reverse]
  | c :: cs, acc =>
      if c = ',' then String.mk acc.reverse :: splitCommaChars cs []
      else splitCommaChars cs (c :: acc)

/-- Embeds `strings.Split s ","`. -/
def splitOnComma (s : String) : List String :=
  splitCommaChars s.data []

/-- Helper for `containsStr`: list-of-characters prefix test. -/
def startsWith : List Char → List Char → Bool
  | [], _ => true
  | _ :: _, [] => false
  | a :: as, b :: bs => a == b && startsWith as bs

/-- Embeds `strings.Contains hay needle`: some suffix of `hay` starts
with `needle`. -/
def containsStr (hay needle : String) : Bool :=
  (List.range (hay.data.length + 1)).any
    (fun i => startsWith needle.data (hay.data.drop i))

/-! ### Filtering (ListView.applyFilter / ListView.matchesFilter) -/

/-- Embeds `ListView.matchesFilter`.  The stored filter (`l.filter`) is
already lowercased by `SetFilter`; the task fields are lowercased here. -/
def matchesFilter (filt : String) (t : Task) : Bool :=
  if filt = "" then true
  else if containsStr (lowerStr t.title) filt then true
  else if containsStr (lowerStr t.description) filt then true
  else t.tags.any (fun tg => containsStr (lowerStr tg) filt)

/-- Embeds `ListView.applyFilter`: the Go loop `for i, task := range l.tasks`
appending `i` on a match is the filter of the index range. -/
def applyFilter (tasks : List Task) (filt : String) : List Nat :=
  (List.range tasks.length).filter (fun i => matchesFilter filt (tasks.getD i default))

/-! ### Grouping (ListView.organizeItems) -/

/-- A displayable item: `ListView.ListItem` / `KanbanView.KanbanItem`
(both are a header-or-task-reference tagged record of the same shape). -/
inductive Item where
  | header (text : String)
  | taskRef (idx : Nat)
deriving DecidableEq, Repr

/-- The `isHeader` field of a displayable item. -/
def Item.isHeader : Item → Bool
  | Item.header _ => true
  | Item.taskRef _ => false

/-- The `taskIndex` field of a non-header item. -/
def Item.index? : Item → Option Nat
  | Item.header _ => Option.none
  | Item.taskRef i => some i

/-- The grouping key of `organizeItems` for the task at index `idx`
(status label, priority label, or first tag with "Sans tag" for tagless). -/
def keyOf (tasks : List Task) (g : GroupBy) (idx : Nat) : String :=
  match g with
  | GroupBy.byStatus => statusLabel (tasks.getD idx default).status
  | GroupBy.byPriority => priorityLabel (tasks.getD idx default).priority
  | GroupBy.byTag =>
      match (tasks.getD idx default).tags with
      | [] => "Sans tag"
      | tg :: _ => tg
  | GroupBy.gnone => ""

/-- First-occurrence deduplication: embeds the `groupOrder` list that the
Go code builds by appending a key the first time it is seen in the scan
(the `if _, exists := groups[key]; !exists` check). -/
def firstOccur : List String → List String
  | [] => []
  | k :: ks => k :: firstOccur (ks.filter (fun x => x ≠ k))
termination_by l => l.length
decreasing_by
  exact Nat.lt_succ_of_le (List.length_filter_le _ _)

/-- The member list of group `k`: the Go map entry `groups[k]` collects,
in scan order, exactly the filtered indices whose key is `k`. -/
def groupMembers (tasks : List Task) (g : GroupBy) (filtered : List Nat)
    (k : String) : List Nat :=
  filtered.filter (fun i => keyOf tasks g i = k)

/-- The final `groupOrder` of `ListView.organizeItems`: first-occurrence
order, replaced for ByStatus/ByPriority by the fixed enum order restricted
to keys present in the `groups` map. -/
def groupKeys (tasks : List Task) (g : GroupBy) (filtered : List Nat) : List String :=
  let keys := filtered.map (keyOf tasks g)
  match g with
  | GroupBy.byStatus => (allStatuses.map statusLabel).filter (fun l => keys.contains l)
  | GroupBy.byPriority => (allPriorities.map priorityLabel).filter (fun l => keys.contains l)
  | _ => firstOccur keys

/-- Embeds `ListView.organizeItems` (acting on the already-filtered index
list): GroupByNone emits one task reference per filtered index; otherwise
each group is emitted as a header `"<key> (<count>)"` followed by its
members. -/
def organizeItems (tasks : List Task) (filtered : List Nat) (g : GroupBy) : List Item :=
  match g with
  | GroupBy.gnone => filtered.map Item.taskRef
  | _ =>
      (groupKeys tasks g filtered).flatMap (fun k =>
        Item.header (k ++ " (" ++ toString (groupMembers tasks g filtered k).length ++ ")")
          :: (groupMembers tasks g filtered k).map Item.taskRef)

/-- The item sequence of the list view after `SetTasks`/`SetFilter`:
`SetFilter` stores the lowercased filter, then `applyFilter` and
`organizeItems` run. -/
def listViewItems (tasks : List Task) (rawFilter : String) (g : GroupBy) : List Item :=
  organizeItems tasks (applyFilter tasks (lowerStr rawFilter)) g

/-! ### Selection cursor
(ListView.adjustCursor / MoveUp / MoveDown and the textually identical
KanbanView.adjustColumnCursor / MoveUp / MoveDown on a column's items).
The Go cursor is an `int`; the backward scan of `MoveDown` can leave it
at `-1`, so the cursor is embedded as `Int`. -/

/-- The item at cursor position `c`, when `c` is in bounds. -/
def itemAt (items : List Item) (c : Int) : Option Item :=
  if c < 0 then Option.none else items[c.toNat]?

/-- `true` when position `c` is in bounds and holds a header. -/
def isHeaderAt (items : List Item) (c : Int) : Bool :=
  match itemAt items c with
  | some it => it.isHeader
  | Option.none => false

/-- `true` when position `c` is in bounds and holds a task reference. -/
def isTaskAt (items : List Item) (c : Int) : Bool :=
  match itemAt items c with
  | some it => !it.isHeader
  | Option.none => false

/-- Embeds the forward header-skipping loop
`for cursor < len(items) && items[cursor].isHeader { cursor++ }`. -/
def skipFwd (items : List Item) (c : Int) : Int :=
  if h : 0 ≤ c ∧ c.toNat < items.length then
    if (items.get ⟨c.toNat, h.2⟩).isHeader then skipFwd items (c + 1) else c
  else c
termination_by (items.length - c.toNat : Nat)
decreasing_by omega

/-- Embeds the backward header-skipping loop of `MoveUp`:
`for cursor > 0 && items[cursor].isHeader { cursor-- }`. -/
def skipBwd (items : List Item) (c : Int) : Int :=
  if h : 0 < c ∧ c.toNat < items.length then
    if (items.get ⟨c.toNat, h.2⟩).isHeader then skipBwd items (c - 1) else c
  else c
termination_by (c.toNat : Nat)
decreasing_by omega

/-- Embeds the backward recovery loop
`for cursor = ...; cursor >= 0; cursor-- { if !items[cursor].isHeader break }`
starting at a given position (the callers start it at `len-1`);
it can end at `-1` when everything it visited was a header. -/
def backScan (items : List Item) (c : Int) : Int :=
  if h : 0 ≤ c ∧ c.toNat < items.length then
    if (items.get ⟨c.toNat, h.2⟩).isHeader then backScan items (c - 1) else c
  else c
termination_by ((c + 1).toNat : Nat)
decreasing_by omega

/-- Embeds `ListView.adjustCursor` / `KanbanView.adjustColumnCursor`:
reset to 0 on an empty sequence; clamp to `len-1`; skip headers forward;
on running off the end scan backward from `len-1`; clamp `-1` to 0. -/
def adjustCursor (items : List Item) (cursor : Int) : Int :=
  if items.length = 0 then 0
  else
    let c1 := if cursor ≥ (items.length : Int) then (items.length : Int) - 1 else cursor
    let c2 := skipFwd items c1
    let c3 := if c2 ≥ (items.length : Int) then backScan items ((items.length : Int) - 1) else c2
    if c3 < 0 then 0 else c3

/-- Embeds `ListView.MoveUp` / `KanbanView.MoveUp` (on the active column):
step up, skip headers downward, and if stuck on a header at the top scan
forward to the next task. -/
def moveUp (items : List Item) (cursor : Int) : Int :=
  if cursor > 0 then
    let c1 := skipBwd items (cursor - 1)
    if 0 ≤ c1 ∧ c1 < (items.length : Int) ∧ isHeaderAt items c1 = true then
      skipFwd items c1
    else c1
  else cursor

/-- Embeds `ListView.MoveDown` / `KanbanView.MoveDown`: step down, skip
headers forward, and on running off the end scan backward from `len-1`
for the last task (possibly ending at `-1`). -/
def moveDown (items : List Item) (cursor : Int) : Int :=
  if cursor < (items.length : Int) - 1 then
    let c2 := skipFwd items (cursor + 1)
    if c2 ≥ (items.length : Int) then backScan items ((items.length : Int) - 1) else c2
  else cursor

/-! ### Kanban adapter (internal/ui/kanban.go) -/

/-- Embeds `KanbanColumn`. -/
structure KanbanCol where
  status : String
  tasks : List Nat
  items : List Item
  cursor : Int
deriving DecidableEq, Repr

/-- The zero column used as the out-of-range default of list access
(Go indexes a fixed array of 4 columns, always in range). -/
def defaultCol : KanbanCol :=
  { status := "todo", tasks := [], items := [], cursor := 0 }

/-- Embeds `KanbanView` (styles and sizes omitted: pure rendering). -/
structure KanbanView where
  tasks : List Task
  cols : List KanbanCol
  activeCol : Nat
  groupBy : GroupBy
deriving Repr

/-- Embeds the per-column task distribution of `KanbanView.organizeTasks`:
the loop appends index `i` to column `task.Status.Index()`, so column `c`
(for `c < 4`; `Status.Index` is always `< 4`, making the code's
`0 <= colIdx < 4` guard vacuous) receives exactly the indices whose
status maps to `c`, in collection order. -/
def columnTasks (tasks : List Task) (c : Nat) : List Nat :=
  (List.range tasks.length).filter (fun i => statusIndex (tasks.getD i default).status = c)

/-- Embeds `KanbanView.organizeColumnItems`: within a column, GroupByNone
and GroupByStatus emit plain task references; ByPriority/ByTag group with
headers carrying the bare group key (no count). -/
def kanbanColumnItems (tasks : List Task) (g : GroupBy) (colTasks : List Nat) : List Item :=
  match g with
  | GroupBy.gnone => colTasks.map Item.taskRef
  | GroupBy.byStatus => colTasks.map Item.taskRef
  | _ =>
      (groupKeys tasks g colTasks).flatMap (fun k =>
        Item.header k :: (groupMembers tasks g colTasks k).map Item.taskRef)

/-- Embeds `KanbanView.SetTasks`: store the tasks, run `organizeTasks`
(partition by status), `organizeItems` (per column), and `adjustCursors`
(per column).  No filter is consulted anywhere: `KanbanView` has no
filter field and the app's search only calls `listView.SetFilter`. -/
def setTasksK (k : KanbanView) (ts : List Task) : KanbanView :=
  { k with
    tasks := ts
    cols := (List.range 4).map (fun c =>
      let old := k.cols.getD c defaultCol
      let colTs := columnTasks ts c
      let its := kanbanColumnItems ts k.groupBy colTs
      { old with tasks := colTs, items := its, cursor := adjustCursor its old.cursor }) }

/-- Embeds `KanbanView.MoveLeft`: clamped at column 0. -/
def moveLeftK (k : KanbanView) : KanbanView :=
  if k.activeCol > 0 then { k with activeCol := k.activeCol - 1 } else k

/-- Embeds `KanbanView.MoveRight`: clamped at column 3. -/
def moveRightK (k : KanbanView) : KanbanView :=
  if k.activeCol < 3 then { k with activeCol := k.activeCol + 1 } else k

/-- Embeds `KanbanView.SelectedIndex` on a single column (`-1` is `none`):
`nil` on an empty column, on an out-of-bounds cursor, or on a header. -/
def selectedIdxCol (col : KanbanCol) : Option Nat :=
  if col.items.length = 0 then Option.none
  else
    match itemAt col.items col.cursor with
    | some it => if it.isHeader then Option.none else it.index?
    | Option.none => Option.none

/-- Embeds `KanbanView.SelectedIndex` (active column). -/
def selectedIdxK (k : KanbanView) : Option Nat :=
  selectedIdxCol (k.cols.getD k.activeCol defaultCol)

/-- Embeds `KanbanView.SelectedTask` (the task behind `SelectedIndex`). -/
def selectedTaskK (k : KanbanView) : Option Task :=
  (selectedIdxK k).map (fun i => k.tasks.getD i default)

/-- Embeds `KanbanView.MoveTaskLeft`.  The Go method returns a pointer
into `k.tasks` and assigns its status in place, so the pair returned here
is (returned task, view after the in-place status write); columns, items,
cursors and the active column are untouched. -/
def moveTaskLeftK (k : KanbanView) : Option Task × KanbanView :=
  if k.activeCol = 0 then (Option.none, k)
  else
    match selectedIdxK k with
    | Option.none => (Option.none, k)
    | some i =>
        let t := { k.tasks.getD i default with status := statusFromIndex (k.activeCol - 1) }
        (some t, { k with tasks := k.tasks.set i t })

/-- Embeds `KanbanView.MoveTaskRight` (guard `activeCol >= 3`). -/
def moveTaskRightK (k : KanbanView) : Option Task × KanbanView :=
  if k.activeCol ≥ 3 then (Option.none, k)
  else
    match selectedIdxK k with
    | Option.none => (Option.none, k)
    | some i =>
        let t := { k.tasks.getD i default with status := statusFromIndex (k.activeCol + 1) }
        (some t, { k with tasks := k.tasks.set i t })

/-! ### Task form and modal state machine
(internal/ui/styles.go TaskForm, internal/ui/kanban.go App handlers) -/

/-- Embeds the `AppState` enum. -/
inductive AppState where
  | normal
  | form
  | help
  | search
  | confirmDelete
  | tagInput
deriving DecidableEq, Repr

/-- Embeds the `FormField` enum (`FieldTitle = 0` … `FieldCancel = 6`). -/
def fieldTitle : Nat := 0
def fieldDescription : Nat := 1
def fieldTags : Nat := 2
def fieldPriority : Nat := 3
def fieldStatus : Nat := 4
def fieldSubmit : Nat := 5
def fieldCancel : Nat := 6

/-- Embeds `TaskForm` (text-input models reduced to their string values;
styles and sizes omitted). -/
structure TaskForm where
  titleValue : String
  descValue : String
  tagsValue : String
  priorityIdx : Nat
  statusIdx : Nat
  focusedField : Nat
  isNew : Bool
  task : Option Task
deriving DecidableEq, Repr

/-- Embeds `TaskForm.IsValid`: trimmed title must be non-empty. -/
def isValidF (f : TaskForm) : Bool :=
  trimStr f.titleValue ≠ ""

/-- Embeds `model.NewTask` with its two effects (`uuid.New()` and
`time.Now()`) passed in as arguments. -/
def newTask (title : String) (freshId : String) (now : Nat) : Task :=
  { id := freshId, title := title, description := "",
    priority := "medium", status := "todo", tags := [],
    createdAt := now, updatedAt := now }

/-- Embeds the tag parsing of `TaskForm.GetTask`: split on commas, trim
each piece, drop empty pieces (no duplicate removal in the source). -/
def parseTags (tagStr : String) : List String :=
  if tagStr = "" then []
  else ((splitOnComma tagStr).map trimStr).filter (fun t => t ≠ "")

/-- Embeds `TaskForm.GetTask` (`freshId`/`now` are `NewTask`'s effects). -/
def getTask (f : TaskForm) (freshId : String) (now : Nat) : Task :=
  let base :=
    match f.task with
    | some t => t
    | Option.none => newTask f.titleValue freshId now
  { base with
    title := f.titleValue
    description := f.descValue
    tags := parseTags f.tagsValue
    priority := allPriorities.getD f.priorityIdx default
    status := allStatuses.getD f.statusIdx default }

/-- A persistence command issued by a key handler (the app sends these to
the storage collaborator; `cnone` is "no command, no message"). -/
inductive Cmd where
  | cnone
  | add (t : Task)
  | update (t : Task)
deriving DecidableEq, Repr

/-- Embeds the `"enter"` case of `App.handleFormKeys`: on Submit focus a
valid form commits (add for a new task, update otherwise) and returns to
Normal; an invalid form falls through to `taskForm.Update`, which ignores
enter for a non-text focus, so the state stays `StateForm` with no
command and no message; on Cancel focus return to Normal with no command.
Any other focus falls through to the form's own key handling, which does
not change the app state or issue commands (`enter` is not a text edit). -/
def handleFormEnter (f : TaskForm) (freshId : String) (now : Nat) :
    AppState × Cmd :=
  if f.focusedField = fieldSubmit then
    if isValidF f then
      (AppState.normal,
        if f.isNew then Cmd.add (getTask f freshId now)
        else Cmd.update (getTask f freshId now))
    else (AppState.form, Cmd.cnone)
  else if f.focusedField = fieldCancel then (AppState.normal, Cmd.cnone)
  else (AppState.form, Cmd.cnone)

/-- Embeds the tag toggle loop of `App.handleTagInputKeys`: drop every
occurrence of `tag`; if it was absent, append it. -/
def toggleTag (tags : List String) (tag : String) : List String :=
  let newTags := tags.filter (fun t => t ≠ tag)
  if tags.contains tag then newTags else newTags ++ [tag]

/-- Embeds the `"enter"` case of `App.handleTagInputKeys`: with a
non-empty trimmed input and a selected task, toggle the tag and issue an
update; otherwise return to Normal with no command. -/
def handleTagEnter (inputValue : String) (selected : Option Task) :
    AppState × Cmd :=
  let tag := trimStr inputValue
  if tag ≠ "" then
    match selected with
    | some t => (AppState.normal, Cmd.update { t with tags := toggleTag t.tags tag })
    | Option.none => (AppState.normal, Cmd.cnone)
  else (AppState.normal, Cmd.cnone)

/-! ### Storage (internal/storage/yaml.go) -/

/-- Embeds the replacement loop of `Storage.UpdateTask`: replace the
first stored task whose `ID` matches and stop (`break`). -/
def updateTaskList (target : Task) : List Task → List Task
  | [] => []
  | t :: ts => if t.id = target.id then target :: ts else t :: updateTaskList target ts

/-- Embeds `Storage.UpdateTask` on the loaded collection (`time.Now()`
passed as `now`): refresh the argument's `UpdatedAt`, then replace by
identifier. -/
def storageUpdateTask (stored : List Task) (now : Nat) (arg : Task) : List Task :=
  updateTaskList { arg with updatedAt := now } stored

/-! ### Concrete sample data (for witnesses and counterexamples) -/

/-- Embeds `NewKanbanView`: four empty columns in fixed status order,
active column 0. -/
def initialKanban : KanbanView :=
  { tasks := [], activeCol := 0, groupBy := GroupBy.gnone,
    cols := [ { status := "todo", tasks := [], items := [], cursor := 0 },
              { status := "in_progress", tasks := [], items := [], cursor := 0 },
              { status := "blocked", tasks := [], items := [], cursor := 0 },
              { status := "done", tasks := [], items := [], cursor := 0 } ] }

/-- A sample task (status todo, priority medium, no tags). -/
def sampleTask : Task :=
  { id := "1", title := "alpha", description := "", priority := "medium",
    status := "todo", tags := [], createdAt := 0, updatedAt := 0 }

/-- Three sample tasks with statuses todo, todo, done (the spec's
ByStatus grouping scenario). -/
def sampleTasks : List Task :=
  [ sampleTask,
    { sampleTask with id := "2", title := "beta" },
    { sampleTask with id := "3", title := "gamma", status := "done" } ]

/-- A sample item sequence: header, task, header, task. -/
def sampleItems : List Item :=
  [Item.header "h0", Item.taskRef 0, Item.header "h1", Item.taskRef 1]

/-- A form whose tags field repeats one tag: exhibits that `GetTask` does
not deduplicate tags. -/
def dupTagForm : TaskForm :=
  { titleValue := "t", descValue := "", tagsValue := "a,a",
    priorityIdx := 1, statusIdx := 0, focusedField := fieldSubmit,
    isNew := true, task := Option.none }

/-- A form with a whitespace-only title, focused on Submit. -/
def blankTitleForm : TaskForm :=
  { titleValue := "   ", descValue := "d", tagsValue := "",
    priorityIdx := 1, statusIdx := 0, focusedField := fieldSubmit,
    isNew := true, task := Option.none }

/-- A kanban view whose active (done) column holds one selectable task. -/
def sampleKanban : KanbanView :=
  { tasks := [{ sampleTask with status := "done" }],
    activeCol := 3, groupBy := GroupBy.gnone,
    cols := [ { status := "todo", tasks := [], items := [], cursor := 0 },
              { status := "in_progress", tasks := [], items := [], cursor := 0 },
              { status := "blocked", tasks := [], items := [], cursor := 0 },
              { status := "done", tasks := [0], items := [Item.taskRef 0], cursor := 0 } ] }

/-- A kanban view whose active (todo, leftmost) column holds one
selectable task. -/
def sampleKanban2 : KanbanView :=
  { tasks := [sampleTask], activeCol := 0, groupBy := GroupBy.gnone,
    cols := [ { status := "todo", tasks := [0], items := [Item.taskRef 0], cursor := 0 },
              { status := "in_progress", tasks := [], items := [], cursor := 0 },
              { status := "blocked", tasks := [], items := [], cursor := 0 },
              { status := "done", tasks := [], items := [], cursor := 0 } ] }

/-- An update argument matching the second sample task's identifier. -/
def editedTask : Task :=
  { sampleTask with id := "2", title := "edited" }

/-- The column contents the filter-sensitive reading of the kanban
refresh claim would require: the status partition applied to the
*filtered* index set (the claim's words, for comparison against
`columnTasks`, which the code computes from the unfiltered collection). -/
def filteredColumnSpec (tasks : List Task) (rawFilter : String) (c : Nat) : List Nat :=
  (applyFilter tasks (lowerStr rawFilter)).filter
    (fun i => statusIndex (tasks.getD i default).status = c)

/-! ### Cursor lemmas -/

/-- A cursor position that is in bounds and rests on a task reference. -/
def okPos (items : List Item) (r : Int) : Prop :=
  0 ≤ r ∧ r < (items.length : Int) ∧ isHeaderAt items r = false

theorem isHeaderAt_in (items : List Item) (c : Int) (h0 : 0 ≤ c)
    (h1 : c.toNat < items.length) :
    isHeaderAt items c = (items.get ⟨c.toNat, h1⟩).isHeader := by
  unfold isHeaderAt itemAt
  rw [if_neg (by omega), List.getElem?_eq_getElem h1]
  simp [List.get_eq_getElem]

theorem isHeaderAt_out (items : List Item) (c : Int)
    (h : c < 0 ∨ (items.length : Int) ≤ c) :
    isHeaderAt items c = false := by
  unfold isHeaderAt itemAt
  rcases h with h | h
  · rw [if_pos h]
  · rw [if_neg (by omega), List.getElem?_eq_none (by omega)]

theorem isTaskAt_in (items : List Item) (c : Int) (h0 : 0 ≤ c)
    (h1 : c.toNat < items.length) :
    isTaskAt items c = !(items.get ⟨c.toNat, h1⟩).isHeader := by
  unfold isTaskAt itemAt
  rw [if_neg (by omega), List.getElem?_eq_getElem h1]
  simp [List.get_eq_getElem]

theorem isTaskAt_true (items : List Item) (c : Int) (h : isTaskAt items c = true) :
    0 ≤ c ∧ c < (items.length : Int) ∧ isHeaderAt items c = false := by
  unfold isTaskAt itemAt at h
  by_cases hc : c < 0
  · rw [if_pos hc] at h; exact absurd h (by simp)
  · rw [if_neg hc] at h
    by_cases hlen : c.toNat < items.length
    · refine ⟨by omega, by omega, ?_⟩
      rw [isHeaderAt_in items c (by omega) hlen]
      rw [List.getElem?_eq_getElem hlen] at h
      simpa [List.get_eq_getElem] using h
    · rw [List.getElem?_eq_none (by omega)] at h
      exact absurd h (by simp)

/-- A non-header element of the item list yields an in-bounds task
position. -/
theorem hasTask_witness (items : List Item)
    (h : ∃ it ∈ items, it.isHeader = false) :
    ∃ j : Int, 0 ≤ j ∧ j < (items.length : Int) ∧ isHeaderAt items j = false := by
  obtain ⟨it, hmem, hh⟩ := h
  obtain ⟨⟨n, hn⟩, rfl⟩ := List.mem_iff_get.mp hmem
  refine ⟨(n : Int), by omega, by omega, ?_⟩
  rw [isHeaderAt_in items (n : Int) (by omega) (by simpa using hn)]
  simpa using hh

/-- Behaviour of the forward header-skipping loop: it never moves left,
stays within `[c, len]`, skips only headers, and stops on a non-header
when it stops in bounds. -/
theorem skipFwd_spec (items : List Item) (c : Int) :
    c ≤ skipFwd items c ∧
    (0 ≤ c → c ≤ (items.length : Int) → skipFwd items c ≤ (items.length : Int)) ∧
    (∀ j : Int, c ≤ j → j < skipFwd items c → isHeaderAt items j = true) ∧
    (0 ≤ c → skipFwd items c < (items.length : Int) →
      isHeaderAt items (skipFwd items c) = false) := by
  induction c using skipFwd.induct items with
  | case1 x h hh ih =>
      rw [skipFwd, dif_pos h, if_pos hh]
      obtain ⟨ih1, ih2, ih3, ih4⟩ := ih
      refine ⟨by omega, fun _ _ => ih2 (by omega) (by omega), ?_, fun _ => ih4 (by omega)⟩
      intro j hj1 hj2
      by_cases hjx : j = x
      · subst hjx
        rw [isHeaderAt_in items j h.1 h.2]
        exact hh
      · exact ih3 j (by omega) hj2
  | case2 x h hh =>
      rw [skipFwd, dif_pos h, if_neg hh]
      refine ⟨le_refl _, fun _ _ => by omega, fun j hj1 hj2 => absurd hj2 (by omega), ?_⟩
      intro _ _
      rw [isHeaderAt_in items x h.1 h.2]
      simpa using hh
  | case3 x h =>
      rw [skipFwd, dif_neg h]
      exact ⟨le_refl _, fun h0 hle => by omega,
        fun j hj1 hj2 => absurd hj2 (by omega), fun h0 hlt => absurd hlt (by omega)⟩

/-- Behaviour of `MoveUp`'s backward header-skipping loop: it never moves
right, stays non-negative, skips only headers, and stops on a non-header
unless it hit position 0. -/
theorem skipBwd_spec (items : List Item) (c : Int) :
    skipBwd items c ≤ c ∧
    (0 ≤ c → 0 ≤ skipBwd items c) ∧
    (∀ j : Int, skipBwd items c < j → j ≤ c → isHeaderAt items j = true) ∧
    (0 < skipBwd items c → isHeaderAt items (skipBwd items c) = false) := by
  induction c using skipBwd.induct items with
  | case1 x h hh ih =>
      rw [skipBwd, dif_pos h, if_pos hh]
      obtain ⟨ih1, ih2, ih3, ih4⟩ := ih
      refine ⟨by omega, fun _ => ih2 (by omega), ?_, ih4⟩
      intro j hj1 hj2
      by_cases hjx : j = x
      · subst hjx
        rw [isHeaderAt_in items j (by omega) h.2]
        exact hh
      · exact ih3 j hj1 (by omega)
  | case2 x h hh =>
      rw [skipBwd, dif_pos h, if_neg hh]
      refine ⟨le_refl _, fun _ => by omega, fun j hj1 hj2 => absurd hj2 (by omega), ?_⟩
      intro _
      rw [isHeaderAt_in items x (by omega) h.2]
      simpa using hh
  | case3 x h =>
      rw [skipBwd, dif_neg h]
      refine ⟨le_refl _, fun h0 => h0, fun j hj1 hj2 => absurd hj2 (by omega), ?_⟩
      intro h0
      apply isHeaderAt_out
      omega

/-- Behaviour of the backward recovery loop: it never moves right, ends at
`-1` at the worst, skips only headers, and stops on a non-header when it
stops at a non-negative position. -/
theorem backScan_spec (items : List Item) (c : Int) :
    backScan items c ≤ c ∧
    (-1 ≤ c → -1 ≤ backScan items c) ∧
    (∀ j : Int, backScan items c < j → j ≤ c → isHeaderAt items j = true) ∧
    (0 ≤ backScan items c → isHeaderAt items (backScan items c) = false) := by
  induction c using backScan.induct items with
  | case1 x h hh ih =>
      rw [backScan, dif_pos h, if_pos hh]
      obtain ⟨ih1, ih2, ih3, ih4⟩ := ih
      refine ⟨by omega, fun _ => ih2 (by omega), ?_, ih4⟩
      intro j hj1 hj2
      by_cases hjx : j = x
      · subst hjx
        rw [isHeaderAt_in items j h.1 h.2]
        exact hh
      · exact ih3 j hj1 (by omega)
  | case2 x h hh =>
      rw [backScan, dif_pos h, if_neg hh]
      refine ⟨le_refl _, fun _ => by omega, fun j hj1 hj2 => absurd hj2 (by omega), ?_⟩
      intro _
      rw [isHeaderAt_in items x h.1 h.2]
      simpa using hh
  | case3 x h =>
      rw [backScan, dif_neg h]
      refine ⟨le_refl _, fun h0 => h0, fun j hj1 hj2 => absurd hj2 (by omega), ?_⟩
      intro h0
      apply isHeaderAt_out
      omega

/-! ### Claim C1: the cursor invariant -/

/-- C1.  After the re-clamp operation (`ListView.adjustCursor`, and the
identical `KanbanView.adjustColumnCursor` on a column) run from any
in-bounds position, and after `MoveUp`/`MoveDown` run from any position
resting on a task reference, the cursor is in bounds and rests on a task
reference whenever the item sequence contains at least one; on an empty
sequence the re-clamp resets the position to 0. -/
theorem cursor_invariant_c1 (items : List Item) (c : Int) :
    (items = [] → adjustCursor items c = 0)
    ∧ ((∃ it ∈ items, it.isHeader = false) → 0 ≤ c → c < (items.length : Int) →
        okPos items (adjustCursor items c))
    ∧ (isTaskAt items c = true → okPos items (moveUp items c))
    ∧ (isTaskAt items c = true → okPos items (moveDown items c)) := by
  refine ⟨?_, ?_, ?_, ?_⟩
  · intro h
    subst h
    simp [adjustCursor]
  · intro hex h0 hlt
    have hlen : items.length ≠ 0 := by omega
    have hc1 : ¬ (c ≥ (items.length : Int)) := by omega
    simp only [adjustCursor]
    rw [if_neg hlen, if_neg hc1]
    obtain ⟨s1, s2, s3, s4⟩ := skipFwd_spec items c
    by_cases h2 : skipFwd items c ≥ (items.length : Int)
    · rw [if_pos h2]
      obtain ⟨j, hj0, hjlt, hjhd⟩ := hasTask_witness items hex
      obtain ⟨b1, b2, b3, b4⟩ := backScan_spec items ((items.length : Int) - 1)
      have hb0 : 0 ≤ backScan items ((items.length : Int) - 1) := by
        by_contra hneg
        have := b3 j (by omega) (by omega)
        rw [hjhd] at this
        exact absurd this (by simp)
      rw [if_neg (by omega)]
      exact ⟨hb0, by omega, b4 hb0⟩
    · rw [if_neg h2]
      have hv0 : (0 : Int) ≤ skipFwd items c := by omega
      rw [if_neg (by omega)]
      exact ⟨hv0, by omega, s4 h0 (by omega)⟩
  · intro ht
    obtain ⟨h0, hlt, hhd⟩ := isTaskAt_true items c ht
    simp only [moveUp]
    by_cases hpos : c > 0
    · rw [if_pos hpos]
      obtain ⟨b1, b2, b3, b4⟩ := skipBwd_spec items (c - 1)
      have h0c1 : 0 ≤ skipBwd items (c - 1) := b2 (by omega)
      have hc1len : skipBwd items (c - 1) < (items.length : Int) := by omega
      by_cases hcond : 0 ≤ skipBwd items (c - 1) ∧
          skipBwd items (c - 1) < (items.length : Int) ∧
          isHeaderAt items (skipBwd items (c - 1)) = true
      · rw [if_pos hcond]
        obtain ⟨f1, f2, f3, f4⟩ := skipFwd_spec items (skipBwd items (c - 1))
        have hle : skipFwd items (skipBwd items (c - 1)) ≤ c := by
          by_contra hgt
          have := f3 c (by omega) (by omega)
          rw [hhd] at this
          exact absurd this (by simp)
        exact ⟨by omega, by omega, f4 h0c1 (by omega)⟩
      · rw [if_neg hcond]
        have hhd1 : isHeaderAt items (skipBwd items (c - 1)) = false := by
          rcases Bool.eq_false_or_eq_true (isHeaderAt items (skipBwd items (c - 1))) with h | h
          · exact absurd ⟨h0c1, hc1len, h⟩ hcond
          · exact h
        exact ⟨h0c1, hc1len, hhd1⟩
    · rw [if_neg hpos]
      exact ⟨h0, hlt, hhd⟩
  · intro ht
    obtain ⟨h0, hlt, hhd⟩ := isTaskAt_true items c ht
    simp only [moveDown]
    by_cases hlt2 : c < (items.length : Int) - 1
    · rw [if_pos hlt2]
      obtain ⟨f1, f2, f3, f4⟩ := skipFwd_spec items (c + 1)
      by_cases hge : skipFwd items (c + 1) ≥ (items.length : Int)
      · rw [if_pos hge]
        obtain ⟨b1, b2, b3, b4⟩ := backScan_spec items ((items.length : Int) - 1)
        have hb0 : 0 ≤ backScan items ((items.length : Int) - 1) := by
          by_contra hneg
          have := b3 c (by omega) (by omega)
          rw [hhd] at this
          exact absurd this (by simp)
        exact ⟨hb0, by omega, b4 hb0⟩
      · rw [if_neg hge]
        exact ⟨by omega, by omega, f4 (by omega) (by omega)⟩
    · rw [if_neg hlt2]
      exact ⟨h0, hlt, hhd⟩

/-- Witness for C1 on the sample items: the clamp from position 0 (a
header) and the moves from position 1 (a task) all land on tasks. -/
theorem cursor_invariant_c1_witness :
    okPos sampleItems (adjustCursor sampleItems 0)
    ∧ okPos sampleItems (moveUp sampleItems 1)
    ∧ okPos sampleItems (moveDown sampleItems 1) :=
  ⟨(cursor_invariant_c1 sampleItems 0).2.1 (by decide) (by decide) (by decide),
   (cursor_invariant_c1 sampleItems 1).2.2.1 (by decide),
   (cursor_invariant_c1 sampleItems 1).2.2.2 (by decide)⟩

/-! ### Claim C6: boundary no-ops -/

/-- C6.  `MoveUp` from the topmost selectable item and `MoveDown` from
the bottommost selectable item do not move the cursor, even with headers
between the cursor and the sequence end; kanban `MoveLeft` at column 0
and `MoveRight` at column 3 leave the active column unchanged. -/
theorem boundary_noops_c6 (items : List Item) (c : Int) (k : KanbanView) :
    (isTaskAt items c = true → (∀ j : Int, 0 ≤ j → j < c → isHeaderAt items j = true) →
      moveUp items c = c)
    ∧ (isTaskAt items c = true →
        (∀ j : Int, c < j → j < (items.length : Int) → isHeaderAt items j = true) →
      moveDown items c = c)
    ∧ (k.activeCol = 0 → moveLeftK k = k)
    ∧ (k.activeCol = 3 → moveRightK k = k) := by
  refine ⟨?_, ?_, ?_, ?_⟩
  · intro ht htop
    obtain ⟨h0, hlt, hhd⟩ := isTaskAt_true items c ht
    simp only [moveUp]
    by_cases hpos : c > 0
    · rw [if_pos hpos]
      obtain ⟨b1, b2, b3, b4⟩ := skipBwd_spec items (c - 1)
      have h0c1 : 0 ≤ skipBwd items (c - 1) := b2 (by omega)
      have hc10 : skipBwd items (c - 1) = 0 := by
        by_contra hne
        have hhd1 := b4 (by omega)
        have := htop (skipBwd items (c - 1)) h0c1 (by omega)
        rw [hhd1] at this
        exact absurd this (by simp)
      rw [hc10]
      have hh0 : isHeaderAt items 0 = true := htop 0 (by omega) (by omega)
      rw [if_pos ⟨by omega, by omega, hh0⟩]
      obtain ⟨f1, f2, f3, f4⟩ := skipFwd_spec items 0
      have hle : skipFwd items 0 ≤ c := by
        by_contra hgt
        have := f3 c (by omega) (by omega)
        rw [hhd] at this
        exact absurd this (by simp)
      by_contra hne
      have hlt2 : skipFwd items 0 < c := by omega
      have := htop (skipFwd items 0) (by omega) hlt2
      rw [f4 (by omega) (by omega)] at this
      exact absurd this (by simp)
    · rw [if_neg hpos]
  · intro ht hbot
    obtain ⟨h0, hlt, hhd⟩ := isTaskAt_true items c ht
    simp only [moveDown]
    by_cases hlt2 : c < (items.length : Int) - 1
    · rw [if_pos hlt2]
      obtain ⟨f1, f2, f3, f4⟩ := skipFwd_spec items (c + 1)
      have hend : skipFwd items (c + 1) = (items.length : Int) := by
        by_contra hne
        have hin : skipFwd items (c + 1) < (items.length : Int) := by
          have := f2 (by omega) (by omega)
          omega
        have hhd2 := f4 (by omega) hin
        have := hbot (skipFwd items (c + 1)) (by omega) hin
        rw [hhd2] at this
        exact absurd this (by simp)
      rw [if_pos (by omega)]
      obtain ⟨b1, b2, b3, b4⟩ := backScan_spec items ((items.length : Int) - 1)
      have hb0 : backScan items ((items.length : Int) - 1) = c := by
        by_contra hne
        by_cases hcase : backScan items ((items.length : Int) - 1) < c
        · have := b3 c (by omega) (by omega)
          rw [hhd] at this
          exact absurd this (by simp)
        · have hgt : c < backScan items ((items.length : Int) - 1) := by omega
          have hhd3 := b4 (by omega)
          have := hbot (backScan items ((items.length : Int) - 1)) hgt (by omega)
          rw [hhd3] at this
          exact absurd this (by simp)
      exact hb0
    · rw [if_neg hlt2]
  · intro h
    simp [moveLeftK, h]
  · intro h
    simp [moveRightK, h]

/-- Witness for C6: on the sample items, position 1 is topmost (header
below it only) and a `MoveDown` blocked by the trailing header; on a
sequence with a trailing header, position 1 is also bottommost.
The kanban boundary cases are exercised on concrete views. -/
theorem boundary_noops_c6_witness :
    moveUp sampleItems 1 = 1
    ∧ moveDown [Item.header "h", Item.taskRef 0, Item.header "g"] 1 = 1
    ∧ moveLeftK initialKanban = initialKanban
    ∧ moveRightK sampleKanban = sampleKanban :=
  ⟨(boundary_noops_c6 sampleItems 1 initialKanban).1 (by decide) (by decide),
   (boundary_noops_c6 [Item.header "h", Item.taskRef 0, Item.header "g"] 1
      initialKanban).2.1 (by decide) (by decide),
   (boundary_noops_c6 sampleItems 1 initialKanban).2.2.1 (by decide),
   (boundary_noops_c6 sampleItems 1 sampleKanban).2.2.2 (by decide)⟩

/-! ### Organizer lemmas -/

theorem firstOccur_mem : ∀ (l : List String) (x : String),
    x ∈ firstOccur l ↔ x ∈ l := by
  intro l
  induction l using firstOccur.induct with
  | case1 =>
      intro x
      rw [firstOccur]
  | case2 k ks ih =>
      intro x
      rw [firstOccur]
      by_cases hx : x = k
      · subst hx
        simp
      · simp only [List.mem_cons, ih x, List.mem_filter]
        constructor
        · rintro (h | ⟨h, _⟩)
          · exact absurd h hx
          · exact Or.inr h
        · rintro (h | h)
          · exact absurd h hx
          · exact Or.inr ⟨h, by simpa using hx⟩

theorem firstOccur_nodup (l : List String) : (firstOccur l).Nodup := by
  induction l using firstOccur.induct with
  | case1 =>
      rw [firstOccur]
      exact List.nodup_nil
  | case2 k ks ih =>
      rw [firstOccur]
      refine List.nodup_cons.mpr ⟨?_, ih⟩
      intro hmem
      rw [firstOccur_mem, List.mem_filter] at hmem
      simpa using hmem.2

/-- Filtering a partition key out first does not change the other keys'
member lists. -/
theorem filter_key_of_ne {key : Nat → String} {k q : String} (hne : q ≠ k)
    (l : List Nat) :
    (l.filter (fun x => !(key x = k : Bool))).filter (fun x => key x = q)
      = l.filter (fun x => key x = q) := by
  rw [List.filter_filter]
  apply List.filter_congr
  intro x _
  by_cases hq : key x = q
  · have hnk : ¬ (key x = k) := fun hk => hne (by rw [← hq, hk])
    simp [hq, hnk, hne]
  · simp [hq]

/-- Concatenating, over a duplicate-free list of keys covering every
element, the filter of each key reproduces the list up to permutation
(the partition property of the `groups` map flattening). -/
theorem flatMap_filter_perm (key : Nat → String) :
    ∀ (ks : List String) (l : List Nat), ks.Nodup → (∀ x ∈ l, key x ∈ ks) →
      (ks.flatMap (fun k => l.filter (fun x => key x = k))).Perm l := by
  intro ks
  induction ks with
  | nil =>
      intro l _ hcov
      have : l = [] := by
        cases l with
        | nil => rfl
        | cons a l => exact absurd (hcov a (by simp)) (by simp)
      subst this
      simp
  | cons k ks ih =>
      intro l hnd hcov
      rw [List.flatMap_cons]
      have hknot : k ∉ ks := (List.nodup_cons.mp hnd).1
      have hstep : ks.flatMap (fun q => l.filter (fun x => key x = q))
          = ks.flatMap (fun q =>
              (l.filter (fun x => !(key x = k : Bool))).filter (fun x => key x = q)) := by
        apply List.flatMap_congr
        intro q hq
        have hne : q ≠ k := fun h => hknot (h ▸ hq)
        rw [filter_key_of_ne hne]
      rw [hstep]
      have hperm := ih (l.filter (fun x => !(key x = k : Bool)))
        (List.nodup_cons.mp hnd).2
        (by
          intro x hx
          rw [List.mem_filter] at hx
          have := hcov x hx.1
          rcases List.mem_cons.mp this with h | h
          · rw [h] at hx
            simpa using hx.2
          · exact h)
      exact List.Perm.trans (hperm.append_left _) (List.filter_append_perm _ l)

/-- The filtered indices all lie below the task count. -/
theorem applyFilter_lt (tasks : List Task) (filt : String) :
    ∀ i ∈ applyFilter tasks filt, i < tasks.length := by
  intro i hi
  rw [applyFilter, List.mem_filter, List.mem_range] at hi
  exact hi.1

theorem applyFilter_nodup (tasks : List Task) (filt : String) :
    (applyFilter tasks filt).Nodup :=
  (List.nodup_range _).filter _

theorem mem_applyFilter (tasks : List Task) (filt : String) (i : Nat)
    (hi : i < tasks.length) :
    i ∈ applyFilter tasks filt ↔ matchesFilter filt (tasks.getD i default) = true := by
  rw [applyFilter, List.mem_filter, List.mem_range]
  simp [hi]

/-- Every filtered index's key belongs to the emitted group-key list
(for ByStatus/ByPriority this needs the data-model invariant that the
status/priority fields hold one of the four enum values, since the fixed
enum reorder drops keys outside the enum's label set). -/
theorem keyOf_mem_groupKeys (tasks : List Task) (g : GroupBy) (filtered : List Nat)
    (hf : ∀ i ∈ filtered, i < tasks.length)
    (hvalid : ∀ t ∈ tasks, t.status ∈ allStatuses ∧ t.priority ∈ allPriorities) :
    ∀ i ∈ filtered, keyOf tasks g i ∈ groupKeys tasks g filtered := by
  intro i hi
  have hmem : tasks.getD i default ∈ tasks := by
    rw [List.getD_eq_getElem tasks default (hf i hi)]
    exact List.getElem_mem _
  have hkey : keyOf tasks g i ∈ filtered.map (keyOf tasks g) :=
    List.mem_map.mpr ⟨i, hi, rfl⟩
  cases g with
  | gnone =>
      simp only [groupKeys]
      rw [firstOccur_mem]
      exact hkey
  | byTag =>
      simp only [groupKeys]
      rw [firstOccur_mem]
      exact hkey
  | byStatus =>
      simp only [groupKeys]
      rw [List.mem_filter]
      refine ⟨?_, by simpa [List.elem_iff] using hkey⟩
      apply List.mem_map.mpr
      exact ⟨(tasks.getD i default).status, (hvalid _ hmem).1, rfl⟩
  | byPriority =>
      simp only [groupKeys]
      rw [List.mem_filter]
      refine ⟨?_, by simpa [List.elem_iff] using hkey⟩
      apply List.mem_map.mpr
      exact ⟨(tasks.getD i default).priority, (hvalid _ hmem).2, rfl⟩

theorem groupKeys_nodup (tasks : List Task) (g : GroupBy) (filtered : List Nat) :
    (groupKeys tasks g filtered).Nodup := by
  cases g with
  | gnone => exact firstOccur_nodup _
  | byTag => exact firstOccur_nodup _
  | byStatus =>
      apply List.Nodup.filter
      decide
  | byPriority =>
      apply List.Nodup.filter
      decide

/-- Dropping headers from the grouped output leaves the concatenation of
the group member lists. -/
theorem organize_extract (tasks : List Task) (filtered : List Nat) (g : GroupBy)
    (hg : g ≠ GroupBy.gnone) :
    (organizeItems tasks filtered g).filterMap Item.index?
      = (groupKeys tasks g filtered).flatMap (groupMembers tasks g filtered) := by
  have hseg : ∀ k : String, ∀ txt : String,
      (Item.header txt :: (groupMembers tasks g filtered k).map Item.taskRef).filterMap
          Item.index?
        = groupMembers tasks g filtered k := by
    intro k txt
    rw [List.filterMap_cons]
    simp only [Item.index?]
    rw [List.filterMap_map]
    have : (Item.index? ∘ Item.taskRef) = some := by
      funext i
      rfl
    rw [this, List.filterMap_some]
  cases g with
  | gnone => exact absurd rfl hg
  | byStatus =>
      simp only [organizeItems]
      rw [List.filterMap_flatMap]
      exact List.flatMap_congr (fun k _ => hseg k _)
  | byPriority =>
      simp only [organizeItems]
      rw [List.filterMap_flatMap]
      exact List.flatMap_congr (fun k _ => hseg k _)
  | byTag =>
      simp only [organizeItems]
      rw [List.filterMap_flatMap]
      exact List.flatMap_congr (fun k _ => hseg k _)

/-- The grouped output's task references are a permutation of the
filtered index list. -/
theorem organize_perm (tasks : List Task) (filtered : List Nat) (g : GroupBy)
    (hg : g ≠ GroupBy.gnone)
    (hf : ∀ i ∈ filtered, i < tasks.length)
    (hvalid : ∀ t ∈ tasks, t.status ∈ allStatuses ∧ t.priority ∈ allPriorities) :
    ((organizeItems tasks filtered g).filterMap Item.index?).Perm filtered := by
  rw [organize_extract tasks filtered g hg]
  exact flatMap_filter_perm (keyOf tasks g) (groupKeys tasks g filtered) filtered
    (groupKeys_nodup tasks g filtered)
    (keyOf_mem_groupKeys tasks g filtered hf hvalid)

/-- A task reference is in the organized output iff its index passed the
filter. -/
theorem taskRef_mem_organize (tasks : List Task) (filtered : List Nat) (g : GroupBy)
    (hf : ∀ i ∈ filtered, i < tasks.length)
    (hvalid : ∀ t ∈ tasks, t.status ∈ allStatuses ∧ t.priority ∈ allPriorities)
    (i : Nat) :
    Item.taskRef i ∈ organizeItems tasks filtered g ↔ i ∈ filtered := by
  cases g with
  | gnone =>
      simp only [organizeItems]
      constructor
      · intro h
        obtain ⟨j, hj, hji⟩ := List.mem_map.mp h
        cases hji
        exact hj
      · intro h
        exact List.mem_map.mpr ⟨i, h, rfl⟩
  | byStatus =>
      rw [← (organize_perm tasks filtered GroupBy.byStatus (by simp) hf hvalid).mem_iff,
        List.mem_filterMap]
      constructor
      · intro h
        exact ⟨Item.taskRef i, h, rfl⟩
      · rintro ⟨it, hit, hsome⟩
        cases it with
        | header t => exact absurd hsome (by simp [Item.index?])
        | taskRef j =>
            have : j = i := by simpa [Item.index?] using hsome
            subst this
            exact hit
  | byPriority =>
      rw [← (organize_perm tasks filtered GroupBy.byPriority (by simp) hf hvalid).mem_iff,
        List.mem_filterMap]
      constructor
      · intro h
        exact ⟨Item.taskRef i, h, rfl⟩
      · rintro ⟨it, hit, hsome⟩
        cases it with
        | header t => exact absurd hsome (by simp [Item.index?])
        | taskRef j =>
            have : j = i := by simpa [Item.index?] using hsome
            subst this
            exact hit
  | byTag =>
      rw [← (organize_perm tasks filtered GroupBy.byTag (by simp) hf hvalid).mem_iff,
        List.mem_filterMap]
      constructor
      · intro h
        exact ⟨Item.taskRef i, h, rfl⟩
      · rintro ⟨it, hit, hsome⟩
        cases it with
        | header t => exact absurd hsome (by simp [Item.index?])
        | taskRef j =>
            have : j = i := by simpa [Item.index?] using hsome
            subst this
            exact hit

/-! ### String lemmas -/

theorem lowerStr_eq_empty (s : String) : lowerStr s = "" ↔ s = "" := by
  obtain ⟨data⟩ := s
  rw [String.ext_iff, String.ext_iff]
  show data.map Char.toLower = ("" : String).data ↔ data = ("" : String).data
  have hnil : ("" : String).data = [] := rfl
  rw [hnil]
  exact ⟨fun h => List.map_eq_nil_iff.mp h, fun h => by rw [h]; rfl⟩

/-- Unfolding of `matchesFilter` into the OR of the three field tests. -/
theorem matchesFilter_iff (filt : String) (t : Task) :
    matchesFilter filt t = true
      ↔ (filt = ""
          ∨ containsStr (lowerStr t.title) filt = true
          ∨ containsStr (lowerStr t.description) filt = true
          ∨ ∃ tg ∈ t.tags, containsStr (lowerStr tg) filt = true) := by
  rw [matchesFilter]
  by_cases h : filt = ""
  · simp [h]
  · rw [if_neg h]
    cases h1 : containsStr (lowerStr t.title) filt
    · cases h2 : containsStr (lowerStr t.description) filt
      · simp [h, h1, h2, List.any_eq_true]
      · simp [h, h1, h2]
    · simp [h, h1]

/-! ### Claim C2: the organizer's output is a partition in group order -/

/-- C2.  For every task collection (with the data model's closed status
and priority sets), filter, and grouping mode other than None: the task
references of the organized output are a permutation of the filtered
index list with no duplicates (concatenating the groups reproduces the
filtered set exactly); the output is group blocks, each one header
`"<key> (<count>)"` carrying the member count followed by the group's
members; ByStatus/ByPriority group keys follow the fixed enum label
order restricted to non-empty groups; ByTag group keys follow
first-occurrence order over the filtered scan. -/
theorem organizer_partition_c2 (tasks : List Task) (fstr : String) (g : GroupBy)
    (hg : g ≠ GroupBy.gnone)
    (hvalid : ∀ t ∈ tasks, t.status ∈ allStatuses ∧ t.priority ∈ allPriorities) :
    ((organizeItems tasks (applyFilter tasks (lowerStr fstr)) g).filterMap
        Item.index?).Perm (applyFilter tasks (lowerStr fstr))
    ∧ ((organizeItems tasks (applyFilter tasks (lowerStr fstr)) g).filterMap
        Item.index?).Nodup
    ∧ organizeItems tasks (applyFilter tasks (lowerStr fstr)) g
        = (groupKeys tasks g (applyFilter tasks (lowerStr fstr))).flatMap (fun k =>
            Item.header (k ++ " (" ++
                toString (groupMembers tasks g (applyFilter tasks (lowerStr fstr)) k).length
                ++ ")")
              :: (groupMembers tasks g (applyFilter tasks (lowerStr fstr)) k).map Item.taskRef)
    ∧ (g = GroupBy.byStatus → groupKeys tasks g (applyFilter tasks (lowerStr fstr))
        = (allStatuses.map statusLabel).filter
            (fun l => decide (∃ i ∈ applyFilter tasks (lowerStr fstr), keyOf tasks g i = l)))
    ∧ (g = GroupBy.byPriority → groupKeys tasks g (applyFilter tasks (lowerStr fstr))
        = (allPriorities.map priorityLabel).filter
            (fun l => decide (∃ i ∈ applyFilter tasks (lowerStr fstr), keyOf tasks g i = l)))
    ∧ (g = GroupBy.byTag → groupKeys tasks g (applyFilter tasks (lowerStr fstr))
        = firstOccur ((applyFilter tasks (lowerStr fstr)).map (keyOf tasks g))) := by
  have hperm := organize_perm tasks (applyFilter tasks (lowerStr fstr)) g hg
    (applyFilter_lt tasks (lowerStr fstr)) hvalid
  refine ⟨hperm, hperm.nodup_iff.mpr (applyFilter_nodup tasks (lowerStr fstr)), ?_, ?_, ?_, ?_⟩
  · cases g with
    | gnone => exact absurd rfl hg
    | byStatus => simp only [organizeItems]
    | byPriority => simp only [organizeItems]
    | byTag => simp only [organizeItems]
  · intro h
    subst h
    simp only [groupKeys]
    apply List.filter_congr
    intro l _
    rw [Bool.eq_iff_iff]
    simp [List.elem_iff, List.mem_map, List.contains]
  · intro h
    subst h
    simp only [groupKeys]
    apply List.filter_congr
    intro l _
    rw [Bool.eq_iff_iff]
    simp [List.elem_iff, List.mem_map, List.contains]
  · intro h
    subst h
    simp only [groupKeys]

/-- Witness for C2 on the spec's ByStatus scenario (statuses todo, todo,
done; empty filter). -/
theorem organizer_partition_c2_witness :
    ((organizeItems sampleTasks (applyFilter sampleTasks (lowerStr "")) GroupBy.byStatus).filterMap
        Item.index?).Perm (applyFilter sampleTasks (lowerStr "")) :=
  (organizer_partition_c2 sampleTasks "" GroupBy.byStatus (by decide) (by decide)).1

/-! ### Claim C3: filter semantics -/

/-- C3.  A task reference appears in the organized list-view output iff
the filter is empty or the case-folded filter occurs in the case-folded
title, description, or some tag (OR semantics); a task matching none of
the three fields is absent from the output altogether. -/
theorem filter_semantics_c3 (tasks : List Task) (fstr : String) (g : GroupBy) (i : Nat)
    (hi : i < tasks.length)
    (hvalid : ∀ t ∈ tasks, t.status ∈ allStatuses ∧ t.priority ∈ allPriorities) :
    Item.taskRef i ∈ listViewItems tasks fstr g
      ↔ (fstr = ""
          ∨ containsStr (lowerStr (tasks.getD i default).title) (lowerStr fstr) = true
          ∨ containsStr (lowerStr (tasks.getD i default).description) (lowerStr fstr) = true
          ∨ ∃ tg ∈ (tasks.getD i default).tags,
              containsStr (lowerStr tg) (lowerStr fstr) = true) := by
  rw [listViewItems,
    taskRef_mem_organize tasks (applyFilter tasks (lowerStr fstr)) g
      (applyFilter_lt tasks (lowerStr fstr)) hvalid i,
    mem_applyFilter tasks (lowerStr fstr) i hi,
    matchesFilter_iff, lowerStr_eq_empty]

/-- Witness for C3: the filter "BET" (case-folded) matches the sample
task "beta" and its reference is indeed produced. -/
theorem filter_semantics_c3_witness :
    Item.taskRef 1 ∈ listViewItems sampleTasks "BET" GroupBy.gnone :=
  (filter_semantics_c3 sampleTasks "BET" GroupBy.gnone 1 (by decide) (by decide)).mpr
    (Or.inr (Or.inl (by decide)))

/-! ### Kanban refresh lemmas -/

theorem statusIndex_lt_four (s : String) : statusIndex s < 4 := by
  rw [statusIndex]
  split_ifs <;> omega

theorem statusIndex_unknown (s : String) (h : s ∉ allStatuses) : statusIndex s = 0 := by
  have h1 : ¬ (s = "todo") := fun he => h (by rw [he]; decide)
  have h2 : ¬ (s = "in_progress") := fun he => h (by rw [he]; decide)
  have h3 : ¬ (s = "blocked") := fun he => h (by rw [he]; decide)
  have h4 : ¬ (s = "done") := fun he => h (by rw [he]; decide)
  rw [statusIndex, if_neg h1, if_neg h2, if_neg h3, if_neg h4]

theorem mem_columnTasks (ts : List Task) (c : Nat) (i : Nat) :
    i ∈ columnTasks ts c
      ↔ i < ts.length ∧ statusIndex (ts.getD i default).status = c := by
  rw [columnTasks, List.mem_filter, List.mem_range]
  simp

/-- The column produced by `SetTasks`: status preserved, tasks set to the
status partition, items organized, cursor re-clamped. -/
theorem setTasksK_col (k : KanbanView) (ts : List Task) (c : Nat) (hc : c < 4) :
    (setTasksK k ts).cols.getD c defaultCol
      = { k.cols.getD c defaultCol with
          tasks := columnTasks ts c
          items := kanbanColumnItems ts k.groupBy (columnTasks ts c)
          cursor := adjustCursor (kanbanColumnItems ts k.groupBy (columnTasks ts c))
              ((k.cols.getD c defaultCol).cursor) } := by
  simp only [setTasksK]
  rw [List.getD_eq_getElem?_getD, List.getElem?_map, List.getElem?_range hc]
  rfl

/-! ### Claim C4: kanban refresh (corrected: the filter is not applied) -/

/-- C4 as stated is false: with one todo task "alpha" and the filter
"z" (which the task does not match), the claim expects column 0 to be
empty after the refresh, but `SetTasks` puts the task there — the
kanban adapter never consults any filter. -/
theorem kanban_refresh_c4_counterexample :
    ((setTasksK initialKanban [sampleTask]).cols.getD 0 defaultCol).tasks = [0]
    ∧ filteredColumnSpec [sampleTask] "z" 0 = []
    ∧ ((setTasksK initialKanban [sampleTask]).cols.getD 0 defaultCol).tasks
        ≠ filteredColumnSpec [sampleTask] "z" 0 := by
  refine ⟨?_, by decide, ?_⟩
  · rw [setTasksK_col initialKanban [sampleTask] 0 (by omega)]
    decide
  · rw [setTasksK_col initialKanban [sampleTask] 0 (by omega)]
    decide

/-- C4 amended.  On every kanban refresh, each of the four columns
receives exactly the tasks of its status (by `Status.Index`) drawn from
the *entire* unfiltered task collection, in collection order; the column
is then organized and its cursor re-clamped; its status is unchanged. -/
theorem kanban_refresh_c4 (k : KanbanView) (ts : List Task) (c : Nat) (hc : c < 4) :
    ((setTasksK k ts).cols.getD c defaultCol).tasks
        = (List.range ts.length).filter
            (fun i => statusIndex (ts.getD i default).status = c)
    ∧ ((setTasksK k ts).cols.getD c defaultCol).items
        = kanbanColumnItems ts k.groupBy (columnTasks ts c)
    ∧ ((setTasksK k ts).cols.getD c defaultCol).cursor
        = adjustCursor (kanbanColumnItems ts k.groupBy (columnTasks ts c))
            ((k.cols.getD c defaultCol).cursor)
    ∧ ((setTasksK k ts).cols.getD c defaultCol).status
        = (k.cols.getD c defaultCol).status := by
  rw [setTasksK_col k ts c hc]
  exact ⟨rfl, rfl, rfl, rfl⟩

/-- Witness for the amended C4 on the three sample tasks. -/
theorem kanban_refresh_c4_witness :
    ((setTasksK initialKanban sampleTasks).cols.getD 0 defaultCol).tasks
      = (List.range sampleTasks.length).filter
          (fun i => statusIndex (sampleTasks.getD i default).status = 0) :=
  (kanban_refresh_c4 initialKanban sampleTasks 0 (by omega)).1

/-! ### Claim C10: the partition is total (unknown statuses land in Todo) -/

/-- C10.  After `SetTasks`, every task index appears in exactly one of
the four columns, because `Status.Index` is total; a task whose status
is none of the four known values is placed in column 0 (Todo) rather
than dropped. -/
theorem kanban_total_partition_c10 (k : KanbanView) (ts : List Task) (i : Nat)
    (hi : i < ts.length) :
    (∃! c : Nat, c < 4 ∧ i ∈ ((setTasksK k ts).cols.getD c defaultCol).tasks)
    ∧ ((ts.getD i default).status ∉ allStatuses →
        i ∈ ((setTasksK k ts).cols.getD 0 defaultCol).tasks) := by
  constructor
  · refine ⟨statusIndex (ts.getD i default).status,
      ⟨statusIndex_lt_four _, ?_⟩, ?_⟩
    · rw [setTasksK_col k ts _ (statusIndex_lt_four _)]
      show i ∈ columnTasks ts _
      rw [mem_columnTasks]
      exact ⟨hi, rfl⟩
    · rintro c ⟨hc4, hmem⟩
      rw [setTasksK_col k ts c hc4] at hmem
      have : i ∈ columnTasks ts c := hmem
      rw [mem_columnTasks] at this
      exact this.2.symm
  · intro hunk
    rw [setTasksK_col k ts 0 (by omega)]
    show i ∈ columnTasks ts 0
    rw [mem_columnTasks]
    exact ⟨hi, statusIndex_unknown _ hunk⟩

/-- Witness for C10: the second sample task (status todo) sits in
exactly one column. -/
theorem kanban_total_partition_c10_witness :
    ∃! c : Nat, c < 4
      ∧ 1 ∈ ((setTasksK initialKanban sampleTasks).cols.getD c defaultCol).tasks :=
  (kanban_total_partition_c10 initialKanban sampleTasks 1 (by decide)).1

/-! ### Claim C5: MoveTaskLeft / MoveTaskRight -/

/-- C5.  `MoveTaskLeft`/`MoveTaskRight` return `none` and leave the view
untouched (hence no update command is issued by the key handler, which
only issues one on a non-nil return) when the active column is at the
respective edge or nothing is selected; otherwise they return the
selected task with its status set to the adjacent column's status, and
they change no column (no cursor, no item sequence), no active column,
and no grouping — reorganization happens only on a later `SetTasks`. -/
theorem move_task_c5 (k : KanbanView) :
    (k.activeCol ≥ 3 → moveTaskRightK k = (Option.none, k))
    ∧ (selectedIdxK k = Option.none → moveTaskRightK k = (Option.none, k))
    ∧ (k.activeCol = 0 → moveTaskLeftK k = (Option.none, k))
    ∧ (selectedIdxK k = Option.none → moveTaskLeftK k = (Option.none, k))
    ∧ (∀ i, k.activeCol < 3 → selectedIdxK k = some i →
        (moveTaskRightK k).1
            = some { k.tasks.getD i default with
                status := statusFromIndex (k.activeCol + 1) }
          ∧ (moveTaskRightK k).2.cols = k.cols
          ∧ (moveTaskRightK k).2.activeCol = k.activeCol
          ∧ (moveTaskRightK k).2.groupBy = k.groupBy)
    ∧ (∀ i, 0 < k.activeCol → selectedIdxK k = some i →
        (moveTaskLeftK k).1
            = some { k.tasks.getD i default with
                status := statusFromIndex (k.activeCol - 1) }
          ∧ (moveTaskLeftK k).2.cols = k.cols
          ∧ (moveTaskLeftK k).2.activeCol = k.activeCol
          ∧ (moveTaskLeftK k).2.groupBy = k.groupBy) := by
  refine ⟨?_, ?_, ?_, ?_, ?_, ?_⟩
  · intro h
    rw [moveTaskRightK, if_pos h]
  · intro h
    rw [moveTaskRightK]
    by_cases h3 : k.activeCol ≥ 3
    · rw [if_pos h3]
    · rw [if_neg h3, h]
  · intro h
    rw [moveTaskLeftK, if_pos h]
  · intro h
    rw [moveTaskLeftK]
    by_cases h0 : k.activeCol = 0
    · rw [if_pos h0]
    · rw [if_neg h0, h]
  · intro i h3 hsel
    rw [moveTaskRightK, if_neg (by omega), hsel]
    exact ⟨rfl, rfl, rfl, rfl⟩
  · intro i h0 hsel
    rw [moveTaskLeftK, if_neg (by omega), hsel]
    exact ⟨rfl, rfl, rfl, rfl⟩

/-- Witness for C5: `MoveTaskRight` in the last column is a no-op pair,
`MoveTaskLeft` in the first column is a no-op pair, and `MoveTaskRight`
from the first column returns the selected task restatused. -/
theorem move_task_c5_witness :
    moveTaskRightK sampleKanban = (Option.none, sampleKanban)
    ∧ moveTaskLeftK sampleKanban2 = (Option.none, sampleKanban2)
    ∧ (moveTaskRightK sampleKanban2).1
        = some { sampleKanban2.tasks.getD 0 default with
            status := statusFromIndex (sampleKanban2.activeCol + 1) }
    ∧ (moveTaskRightK sampleKanban2).2.cols = sampleKanban2.cols :=
  ⟨(move_task_c5 sampleKanban).1 (by decide),
   (move_task_c5 sampleKanban2).2.2.1 (by decide),
   ((move_task_c5 sampleKanban2).2.2.2.2.1 0 (by decide) (by decide)).1,
   ((move_task_c5 sampleKanban2).2.2.2.2.1 0 (by decide) (by decide)).2.1⟩

/-! ### Claim C7: empty-title submit is silently blocked -/

/-- C7.  Pressing confirm with focus on Submit while the title is empty
or whitespace-only leaves the state machine in the Form state and issues
no command (no task is created or updated, no message is produced). -/
theorem form_invalid_submit_c7 (f : TaskForm) (freshId : String) (now : Nat)
    (hfocus : f.focusedField = fieldSubmit) (hempty : trimStr f.titleValue = "") :
    handleFormEnter f freshId now = (AppState.form, Cmd.cnone) := by
  rw [handleFormEnter, if_pos hfocus, if_neg]
  simp [isValidF, hempty]

/-- Witness for C7 on a whitespace-only title. -/
theorem form_invalid_submit_c7_witness :
    handleFormEnter blankTitleForm "id" 0 = (AppState.form, Cmd.cnone) :=
  form_invalid_submit_c7 blankTitleForm "id" 0 (by decide) (by decide)

/-! ### Claim C8: commit invariants (corrected: the form path keeps
duplicate tags) -/

/-- C8 as stated is false: the form path does not deduplicate tags — a
valid form whose tags field reads "a,a" commits a task whose tag list is
`["a", "a"]`, which contains a duplicate. -/
theorem commit_invariant_c8_counterexample :
    isValidF dupTagForm = true
    ∧ handleFormEnter dupTagForm "id0" 0
        = (AppState.normal, Cmd.add (getTask dupTagForm "id0" 0))
    ∧ (getTask dupTagForm "id0" 0).tags = ["a", "a"]
    ∧ ¬ ((getTask dupTagForm "id0" 0).tags.Nodup) :=
  ⟨by decide, by decide, by decide, by decide⟩

theorem toggleTag_nodup (tags : List String) (tag : String) (hnd : tags.Nodup) :
    (toggleTag tags tag).Nodup := by
  simp only [toggleTag]
  by_cases h : tags.contains tag
  · rw [if_pos h]
    exact hnd.filter _
  · rw [if_neg h]
    rw [List.nodup_append]
    refine ⟨hnd.filter _, List.nodup_singleton tag, ?_⟩
    intro x hx hx2
    rw [List.mem_singleton] at hx2
    subst hx2
    have := (List.mem_filter.mp hx).2
    simp at this

theorem toggleTag_no_empty (tags : List String) (tag : String) (hne : "" ∉ tags)
    (htag : tag ≠ "") : "" ∉ toggleTag tags tag := by
  simp only [toggleTag]
  intro hmem
  by_cases h : tags.contains tag
  · rw [if_pos h] at hmem
    exact hne (List.mem_filter.mp hmem).1
  · rw [if_neg h] at hmem
    rcases List.mem_append.mp hmem with hm | hm
    · exact hne (List.mem_filter.mp hm).1
    · rw [List.mem_singleton] at hm
      exact htag hm.symm

/-- C8 amended.  After a form commit the task's title is non-empty and
its tag list contains no empty strings, but it can contain duplicate
strings (the form path does not deduplicate).  After a tag-input confirm
that issues an update, if the selected task's tags previously contained
no duplicates and no empty strings then the committed tags still contain
none, and the title is unchanged. -/
theorem commit_invariant_c8 (f : TaskForm) (freshId : String) (now : Nat)
    (input : String) (t t2 : Task) :
    (isValidF f = true →
        (getTask f freshId now).title ≠ "" ∧ "" ∉ (getTask f freshId now).tags)
    ∧ (t.tags.Nodup → "" ∉ t.tags →
        handleTagEnter input (some t) = (AppState.normal, Cmd.update t2) →
        t2.tags.Nodup ∧ "" ∉ t2.tags ∧ t2.title = t.title) := by
  constructor
  · intro hv
    constructor
    · show f.titleValue ≠ ""
      intro he
      rw [isValidF, he] at hv
      have htr : trimStr "" = "" := by decide
      rw [htr] at hv
      simp at hv
    · show "" ∉ parseTags f.tagsValue
      rw [parseTags]
      by_cases he : f.tagsValue = ""
      · rw [if_pos he]
        simp
      · rw [if_neg he]
        intro hmem
        have := (List.mem_filter.mp hmem).2
        simp at this
  · intro hnd hne hcommit
    simp only [handleTagEnter] at hcommit
    by_cases htrim : trimStr input = ""
    · rw [if_neg (by simp [htrim])] at hcommit
      simp at hcommit
    · rw [if_pos (by simp [htrim])] at hcommit
      have ht2 : t2 = { t with tags := toggleTag t.tags (trimStr input) } := by
        have := (Prod.mk.injEq _ _ _ _).mp hcommit
        have h2 := this.2
        cases h2
        rfl
      subst ht2
      exact ⟨toggleTag_nodup t.tags (trimStr input) hnd,
        toggleTag_no_empty t.tags (trimStr input) hne htrim, rfl⟩

/-- Witness for the amended C8: a valid form commit has a non-empty
title and no empty tag, and a toggle on duplicate-free tags stays
duplicate-free. -/
theorem commit_invariant_c8_witness :
    (getTask dupTagForm "id0" 0).title ≠ ""
    ∧ (toggleTag ["x"] "y").Nodup :=
  ⟨((commit_invariant_c8 dupTagForm "id0" 0 "y" sampleTask sampleTask).1 (by decide)).1,
   ((commit_invariant_c8 dupTagForm "id0" 0 " y " { sampleTask with tags := ["x"] }
        { sampleTask with tags := toggleTag ["x"] "y" }).2
      (by decide) (by decide) (by decide)).1⟩

/-! ### Claim C9: UpdateTask frame -/

theorem updateTaskList_length (target : Task) :
    ∀ l : List Task, (updateTaskList target l).length = l.length := by
  intro l
  induction l with
  | nil => rfl
  | cons t ts ih =>
      rw [updateTaskList]
      by_cases h : t.id = target.id
      · rw [if_pos h]
        simp
      · rw [if_neg h]
        simp [ih]

theorem updateTaskList_no_match (target : Task) :
    ∀ l : List Task, (∀ t ∈ l, t.id ≠ target.id) → updateTaskList target l = l := by
  intro l
  induction l with
  | nil => intro _; rfl
  | cons t ts ih =>
      intro h
      rw [updateTaskList, if_neg (h t (by simp)), ih (fun u hu => h u (by simp [hu]))]

theorem updateTaskList_getD (target : Task) :
    ∀ (l : List Task), (l.map Task.id).Nodup → ∀ i, i < l.length →
      (updateTaskList target l).getD i default
        = if (l.getD i default).id = target.id then target
          else l.getD i default := by
  intro l
  induction l with
  | nil =>
      intro _ i hi
      exact absurd hi (by simp)
  | cons t ts ih =>
      intro hnd i hi
      have hnd2 : t.id ∉ ts.map Task.id ∧ (ts.map Task.id).Nodup := by
        rw [List.map_cons, List.nodup_cons] at hnd
        exact hnd
      rw [updateTaskList]
      by_cases h : t.id = target.id
      · rw [if_pos h]
        cases i with
        | zero => simp [h]
        | succ j =>
            have hlen : j < ts.length := by simpa using hi
            have hmem : ts.getD j default ∈ ts := by
              rw [List.getD_eq_getElem ts default hlen]
              exact List.getElem_mem _
            have hid : ¬ ((ts.getD j default).id = target.id) := by
              intro he
              have h1 : t.id ∈ ts.map Task.id := by
                rw [h, ← he]
                exact List.mem_map.mpr ⟨ts.getD j default, hmem, rfl⟩
              exact hnd2.1 h1
            rw [List.getD_cons_succ, List.getD_cons_succ, if_neg hid]
      · rw [if_neg h]
        cases i with
        | zero => simp [h]
        | succ j =>
            have hlen : j < ts.length := by simpa using hi
            rw [List.getD_cons_succ, List.getD_cons_succ]
            exact ih hnd2.2 j hlen

/-- C9.  `UpdateTask` preserves the collection's length and order; under
the data model's unique-identifier invariant it replaces exactly the
stored task whose identifier matches the argument (with the argument's
fields and a refreshed update timestamp) and leaves every other task
unchanged; when no identifier matches, the collection is returned as
loaded. -/
theorem update_task_c9 (stored : List Task) (now : Nat) (arg : Task) :
    (storageUpdateTask stored now arg).length = stored.length
    ∧ ((∀ t ∈ stored, t.id ≠ arg.id) → storageUpdateTask stored now arg = stored)
    ∧ ((stored.map Task.id).Nodup → ∀ i, i < stored.length →
        (storageUpdateTask stored now arg).getD i default
          = if (stored.getD i default).id = arg.id
            then { arg with updatedAt := now }
            else stored.getD i default) := by
  refine ⟨updateTaskList_length _ stored, ?_, ?_⟩
  · intro h
    exact updateTaskList_no_match _ stored h
  · intro hnd i hi
    exact updateTaskList_getD { arg with updatedAt := now } stored hnd i hi

/-- Witness for C9: updating the second sample task by identifier
replaces exactly it (with the refreshed timestamp) and keeps the length. -/
theorem update_task_c9_witness :
    (storageUpdateTask sampleTasks 7 editedTask).getD 1 default
        = (if (sampleTasks.getD 1 default).id = editedTask.id
           then { editedTask with updatedAt := 7 }
           else sampleTasks.getD 1 default)
    ∧ (storageUpdateTask sampleTasks 7 editedTask).length = sampleTasks.length :=
  ⟨(update_task_c9 sampleTasks 7 editedTask).2.2 (by decide) 1 (by decide),
   (update_task_c9 sampleTasks 7 editedTask).1⟩

end LazyTodo
